import Mathlib

/-!
Shallow embedding of the marginfi-v2 core studied here:
`programs/marginfi/src/state/marginfi_group.rs` (share ledger, bank
configuration, lending pool) and the emission-blending part of
`clients/rust/defi-lamma-snapshot-builder/src/main.rs`.

Machine integers are modelled as `Int` with explicit range checks where the
source uses checked arithmetic.  The `fixed` crate's `I80F48` type (an
external dependency) is modelled by its raw `i128` bit pattern: the real
number represented is `bits / 2^48`.  Its checked multiplication computes the
exact double-width product and arithmetic-shifts right by 48 (floor division
by `2^48`); its checked division widens the dividend by 48 bits and performs
two's-complement (truncating) division, failing on a zero divisor; both fail
when the result does not fit in 128 bits.
-/

/-- Number of fractional bits of `I80F48`. -/
def fracBits : Nat := 48

/-- `2 ^ 48`, the scaling factor between the raw bits and the represented
value of an `I80F48`. -/
def fracUnit : Int := 2 ^ 48

/-- The `fixed` crate's `I80F48`: a 128-bit signed fixed-point number with
80 integer bits and 48 fractional bits, carried as its raw bit pattern. -/
structure I80F48 where
  bits : Int
  deriving DecidableEq, Repr

/-- A raw value fits in a signed 128-bit integer. -/
def inRangeI128 (x : Int) : Prop := -(2 ^ 127) ≤ x ∧ x < 2 ^ 127

instance (x : Int) : Decidable (inRangeI128 x) := by
  unfold inRangeI128; infer_instance

namespace I80F48

/-- `I80F48::ZERO`. -/
def ZERO : I80F48 := ⟨0⟩

/-- `I80F48::ONE` (raw bits `2^48`). -/
def ONE : I80F48 := ⟨fracUnit⟩

/-- `i128::checked_add` on the raw bits: `fixed` addition adds bit patterns. -/
def checked_add (a b : I80F48) : Option I80F48 :=
  if inRangeI128 (a.bits + b.bits) then some ⟨a.bits + b.bits⟩ else none

/-- `I80F48::checked_mul`: exact double-width product, arithmetic shift right
by 48 (floor), `none` when the shifted result does not fit in 128 bits. -/
def checked_mul (a b : I80F48) : Option I80F48 :=
  let r := Int.fdiv (a.bits * b.bits) fracUnit
  if inRangeI128 r then some ⟨r⟩ else none

/-- `I80F48::checked_div`: widen the dividend by 48 bits, two's-complement
(truncating) division; `none` on a zero divisor or when the quotient does not
fit in 128 bits. -/
def checked_div (a b : I80F48) : Option I80F48 :=
  if b.bits = 0 then none
  else
    let q := Int.tdiv (a.bits * fracUnit) b.bits
    if inRangeI128 q then some ⟨q⟩ else none

/-- `I80F48::is_positive`: strictly greater than zero. -/
def is_positive (a : I80F48) : Bool := 0 < a.bits

/-- `From<u64> for I80F48` (lossless: 64 integer bits fit in 80). -/
def ofU64 (n : Nat) : I80F48 := ⟨(n : Int) * fracUnit⟩

/-- Order on `I80F48` is the order on the raw bits (two's-complement raw
form is order-preserving). -/
def lt (a b : I80F48) : Prop := a.bits < b.bits

instance : LT I80F48 := ⟨I80F48.lt⟩

instance (a b : I80F48) : Decidable (a < b) := by
  change Decidable (a.bits < b.bits); infer_instance

end I80F48

/-- Modelled from the spec: the crate's error enum is not under `src/`; the
spec's error-handling design names exactly two error kinds for this core,
`NumericOverflow` (the code's `math_error!`, i.e. `MathError`) and
`DepositCapacityExceeded` (the code's `BankDepositCapacityExceeded`). -/
inductive MarginfiError where
  | MathError
  | BankDepositCapacityExceeded
  deriving DecidableEq, Repr

/-- `MarginfiResult<T>` is `Result<T, Error>`. -/
abbrev MarginfiResult (α : Type := Unit) := Except MarginfiError α

instance {ε α : Type} [DecidableEq ε] [DecidableEq α] : DecidableEq (Except ε α) := fun x y =>
  match x, y with
  | .error a, .error b => decidable_of_iff (a = b) (by simp)
  | .ok a, .ok b => decidable_of_iff (a = b) (by simp)
  | .error _, .ok _ => .isFalse (fun h => Except.noConfusion h)
  | .ok _, .error _ => .isFalse (fun h => Except.noConfusion h)

/-- Solana `Pubkey` (external dependency): an opaque identity with decidable
equality and a default (all-zero) element, modelled as `Nat` with default `0`. -/
abbrev Pubkey := Nat

/-- `Pubkey::default()`. -/
def Pubkey.default : Pubkey := 0

/-- `WrappedI80F48 { value: i128 }`: the persisted raw form. -/
structure WrappedI80F48 where
  value : Int
  deriving DecidableEq, Repr

/-- `From<I80F48> for WrappedI80F48` (`to_bits`). -/
def WrappedI80F48.ofFixed (i : I80F48) : WrappedI80F48 := ⟨i.bits⟩

/-- `From<WrappedI80F48> for I80F48` (`from_bits`). -/
def WrappedI80F48.toFixed (w : WrappedI80F48) : I80F48 := ⟨w.value⟩

/-- Modelled from the spec: `WeightType` lives in `marginfi_account.rs`,
which is not under `src/`; the spec says the tier is
`tier ∈ {Initial, Maintenance}`. -/
inductive WeightType where
  | Initial
  | Maintenance
  deriving DecidableEq, Repr

/-- `BankConfig`: per-Bank risk parameters. `max_capacity` is a `u64`,
modelled as `Nat`. -/
structure BankConfig where
  deposit_weight_init : WrappedI80F48
  deposit_weight_maint : WrappedI80F48
  liability_weight_init : WrappedI80F48
  liability_weight_maint : WrappedI80F48
  max_capacity : Nat
  pyth_oracle : Pubkey
  deriving DecidableEq, Repr

/-- `Bank`: the per-asset share ledger record. -/
structure Bank where
  mint : Pubkey
  deposit_share_value : I80F48
  liability_share_value : I80F48
  liquidity_vault : Pubkey
  insurance_vault : Pubkey
  fee_vault : Pubkey
  config : BankConfig
  total_borrow_shares : I80F48
  total_deposit_shares : I80F48
  deriving DecidableEq, Repr

/-- `BankConfigOpt`: the per-field-optional configuration patch. -/
structure BankConfigOpt where
  deposit_weight_init : Option WrappedI80F48
  deposit_weight_maint : Option WrappedI80F48
  liability_weight_init : Option WrappedI80F48
  liability_weight_maint : Option WrappedI80F48
  max_capacity : Option Nat
  pyth_oracle : Option Pubkey
  deriving DecidableEq, Repr

/-- Modelled from the spec: the repository's `set_if_some!` macro is not
under `src/`; per the spec, "a present value overwrites the corresponding
live field, an absent value leaves it untouched". -/
def setIfSome {α : Type} (cur : α) (new : Option α) : α := new.getD cur

namespace Bank

/-- `Bank::new`: unit share values, zero totals. -/
def new (config : BankConfig) (mint_pk liquidity_vault insurance_vault fee_vault : Pubkey) : Bank :=
  { mint := mint_pk
    deposit_share_value := I80F48.ONE
    liability_share_value := I80F48.ONE
    liquidity_vault := liquidity_vault
    insurance_vault := insurance_vault
    fee_vault := fee_vault
    config := config
    total_borrow_shares := I80F48.ZERO
    total_deposit_shares := I80F48.ZERO }

/-- `Bank::get_liability_value`: `shares.checked_mul(liability_share_value)`,
`MathError` on overflow. -/
def get_liability_value (b : Bank) (shares : I80F48) : MarginfiResult I80F48 :=
  match I80F48.checked_mul shares b.liability_share_value with
  | some v => .ok v
  | none => .error .MathError

/-- `Bank::get_deposit_value`: `shares.checked_mul(deposit_share_value)`,
`MathError` on overflow. -/
def get_deposit_value (b : Bank) (shares : I80F48) : MarginfiResult I80F48 :=
  match I80F48.checked_mul shares b.deposit_share_value with
  | some v => .ok v
  | none => .error .MathError

/-- `Bank::get_liability_shares`: `value.checked_div(liability_share_value)`,
`MathError` on overflow or zero divisor. -/
def get_liability_shares (b : Bank) (value : I80F48) : MarginfiResult I80F48 :=
  match I80F48.checked_div value b.liability_share_value with
  | some v => .ok v
  | none => .error .MathError

/-- `Bank::get_deposit_shares`: `value.checked_div(deposit_share_value)`,
`MathError` on overflow or zero divisor. -/
def get_deposit_shares (b : Bank) (value : I80F48) : MarginfiResult I80F48 :=
  match I80F48.checked_div value b.deposit_share_value with
  | some v => .ok v
  | none => .error .MathError

/-- `Bank::change_deposit_shares`.  The `&mut self` receiver is made
explicit: the returned `Bank` is the state of `self` when the function
returns, on the error paths included.  The repository's `check!` macro is not
under `src/`; it is modelled from the spec's error-handling contract and its
worked capacity example as: fail with the given error when the condition is
false.  Note the source assigns the new total before the capacity check, so
the `BankDepositCapacityExceeded` path returns the mutated bank. -/
def change_deposit_shares (b : Bank) (shares : I80F48) : MarginfiResult × Bank :=
  match I80F48.checked_add b.total_deposit_shares shares with
  | none => (.error .MathError, b)
  | some newTotal =>
    let b1 : Bank := { b with total_deposit_shares := newTotal }
    if shares.is_positive then
      match get_deposit_value b1 b1.total_deposit_shares with
      | .error e => (.error e, b1)
      | .ok total_shares_value =>
        match get_deposit_value b1 (I80F48.ofU64 b1.config.max_capacity) with
        | .error e => (.error e, b1)
        | .ok max_deposit_capacity =>
          if total_shares_value < max_deposit_capacity then (.ok (), b1)
          else (.error .BankDepositCapacityExceeded, b1)
    else (.ok (), b1)

/-- `Bank::change_liability_shares`: checked add only, no capacity check. -/
def change_liability_shares (b : Bank) (shares : I80F48) : MarginfiResult × Bank :=
  match I80F48.checked_add b.total_borrow_shares shares with
  | none => (.error .MathError, b)
  | some newTotal => (.ok (), { b with total_borrow_shares := newTotal })

/-- `Bank::configure`: apply each present field of the patch
(`set_if_some!`); always `Ok(())`. -/
def configure (b : Bank) (config : BankConfigOpt) : MarginfiResult × Bank :=
  (.ok (),
   { b with
     config :=
       { deposit_weight_init := setIfSome b.config.deposit_weight_init config.deposit_weight_init
         deposit_weight_maint := setIfSome b.config.deposit_weight_maint config.deposit_weight_maint
         liability_weight_init := setIfSome b.config.liability_weight_init config.liability_weight_init
         liability_weight_maint := setIfSome b.config.liability_weight_maint config.liability_weight_maint
         max_capacity := setIfSome b.config.max_capacity config.max_capacity
         pyth_oracle := setIfSome b.config.pyth_oracle config.pyth_oracle } })

end Bank

/-- `BankConfig::get_weights`: select the `(deposit, liability)` pair of the
requested tier, converting the wrapped raw form back to `I80F48`. -/
def BankConfig.get_weights (c : BankConfig) (weight_type : WeightType) : I80F48 × I80F48 :=
  match weight_type with
  | .Initial => (c.deposit_weight_init.toFixed, c.liability_weight_init.toFixed)
  | .Maintenance => (c.deposit_weight_maint.toFixed, c.liability_weight_maint.toFixed)

/-- `MAX_LENDING_POOL_RESERVES`. -/
def MAX_LENDING_POOL_RESERVES : Nat := 128

/-- `LendingPool`: a fixed array of 128 optional `Bank` slots, modelled as a
list of that length. -/
structure LendingPool where
  banks : List (Option Bank)
  banks_size : banks.length = MAX_LENDING_POOL_RESERVES

/-- The predicate of the `find` in `LendingPool::get_bank`:
`reserve.is_some() && reserve.unwrap().mint == mint_pk`. -/
def slotMatches (mint_pk : Pubkey) : Option Bank → Bool
  | some b => b.mint = mint_pk
  | none => false

namespace LendingPool

/-- `LendingPool::get_bank`: first populated slot whose mint matches. -/
def get_bank (p : LendingPool) (mint_pk : Pubkey) : Option Bank :=
  match p.banks.find? (slotMatches mint_pk) with
  | some (some b) => some b
  | _ => none

/-- `LendingPool::get_bank_mut`: the same linear search, returning the bank
behind the exclusive handle. -/
def get_bank_mut (p : LendingPool) (mint_pk : Pubkey) : Option Bank :=
  match p.banks.find? (slotMatches mint_pk) with
  | some (some b) => some b
  | _ => none

end LendingPool

/-- Pairwise-distinctness of populated slots: two slots are compatible when
they do not hold banks with the same asset identity. -/
def distinctSlots (s t : Option Bank) : Prop :=
  ∀ a c : Bank, s = some a → t = some c → a.mint ≠ c.mint

/-- Bank states reachable from `Bank::new` by successful
`change_deposit_shares` and `change_liability_shares` calls with arbitrary
deltas. -/
inductive ReachableBank : Bank → Prop where
  | base (config : BankConfig) (mint_pk lv iv fv : Pubkey) :
      ReachableBank (Bank.new config mint_pk lv iv fv)
  | dep (b : Bank) (d : I80F48) (b' : Bank) : ReachableBank b →
      Bank.change_deposit_shares b d = (.ok (), b') → ReachableBank b'
  | liab (b : Bank) (d : I80F48) (b' : Bank) : ReachableBank b →
      Bank.change_liability_shares b d = (.ok (), b') → ReachableBank b'

/-- Bank states reachable from `Bank::new` by successful share changes whose
deltas are all nonnegative (no withdrawals or repayments). -/
inductive ReachableBankNN : Bank → Prop where
  | base (config : BankConfig) (mint_pk lv iv fv : Pubkey) :
      ReachableBankNN (Bank.new config mint_pk lv iv fv)
  | dep (b : Bank) (d : I80F48) (b' : Bank) : ReachableBankNN b → 0 ≤ d.bits →
      Bank.change_deposit_shares b d = (.ok (), b') → ReachableBankNN b'
  | liab (b : Bank) (d : I80F48) (b' : Bank) : ReachableBankNN b → 0 ≤ d.bits →
      Bank.change_liability_shares b d = (.ok (), b') → ReachableBankNN b'

/-- A configuration with `max_capacity = 1000` and all other fields zero. -/
def exConfig : BankConfig := ⟨⟨0⟩, ⟨0⟩, ⟨0⟩, ⟨0⟩, 1000, 0⟩

/-- A freshly created bank (unit share values, zero totals, capacity 1000). -/
def exBank : Bank := Bank.new exConfig 7 1 2 3

/-- The state after a successful borrow-side change of `-1` raw share units
on a fresh bank. -/
def exBankNegBorrow : Bank := (Bank.change_liability_shares exBank ⟨-1⟩).2

/-- A bank whose `deposit_share_value` has raw bits `3` (the tiny positive
value `3 * 2^-48`), exercising fixed-point rounding in the share/value
round trip. -/
def exBankTinyShareValue : Bank := { exBank with deposit_share_value := ⟨3⟩ }

/-- A bank whose stored totals sit at the maximum `i128` value, so any
positive delta overflows the checked addition. -/
def exBankMaxTotals : Bank :=
  { exBank with
    total_deposit_shares := ⟨2 ^ 127 - 1⟩
    total_borrow_shares := ⟨2 ^ 127 - 1⟩ }

/-!
Snapshot-builder model
(`clients/rust/defi-lamma-snapshot-builder/src/main.rs`).

The builder imports a later revision of the `Bank` record whose emission
fields are not under `src/`, and it mixes `I80F48` arithmetic with `f64`
floating point and network lookups.  Numerics are therefore modelled over
`Rat`; every external lookup (Birdeye price fetch, SPL mint account, token
symbol table, the interest-rate curve) is passed in as an
already-resolved input, as the spec's concurrency model prescribes, and the
`f64` function `apr_to_apy` is abstracted as a function argument.
-/

/-- Modelled from the spec: `EMISSIONS_FLAG_LENDING_ACTIVE`, a constant of
the crate not under `src/`; one of the two independent flag bits gating
emission blending. -/
def EMISSIONS_FLAG_LENDING_ACTIVE : Nat := 1

/-- Modelled from the spec: `EMISSIONS_FLAG_BORROW_ACTIVE`, the other
emission flag bit. -/
def EMISSIONS_FLAG_BORROW_ACTIVE : Nat := 2

/-- Modelled from the spec: `SECONDS_PER_YEAR`, the crate's compounding
period count for `apr_to_apy`, not under `src/`. -/
def SECONDS_PER_YEAR : ℚ := 31536000

/-- Modelled from the spec: the later-revision `Bank` fields read by the
snapshot builder (`emissions_mint`, `emissions_flags`, `emissions_rate`,
`mint_decimals`, share totals and exchange rates, the initial liability
weight), which are not under `src/`.  Share totals and exchange rates are
carried as exact rationals. -/
structure SnapshotBank where
  mint : Pubkey
  mint_decimals : Nat
  emissions_mint : Pubkey
  emissions_flags : Nat
  emissions_rate : Nat
  total_asset_shares : ℚ
  total_liability_shares : ℚ
  asset_share_value : ℚ
  liability_share_value : ℚ
  liability_weight_init : ℚ

/-- Modelled from the spec: `Bank::get_emissions_flag`, not under `src/`:
tests one of the two independent emission flag bits. -/
def SnapshotBank.get_emissions_flag (b : SnapshotBank) (flag : Nat) : Bool :=
  b.emissions_flags &&& flag ≠ 0

/-- `DefiLammaPoolInfo`: the per-bank snapshot row. -/
structure DefiLammaPoolInfo where
  pool : String
  chain : String
  project : String
  symbol : String
  tvl_usd : ℚ
  total_supply_usd : ℚ
  total_borrow_usd : ℚ
  ltv : ℚ
  apy_base : ℚ
  apy_reward : Option ℚ
  apy_base_borrow : ℚ
  apy_reward_borrow : Option ℚ
  reward_tokens : List String
  underlying_tokens : List String

/-- `DefiLammaPoolInfo::from_bank`.  `token_price` and
`emissions_token_price` stand for the two Birdeye fetches,
`emissions_mint_decimals` for the unpacked SPL mint account, `symbol` for
the token-list lookup, `rateCurve` for
`config.interest_rate_config.calc_interest_rate` (its first two components),
and `aprToApy` for the `f64` function `apr_to_apy`. -/
def DefiLammaPoolInfo.from_bank (bank : SnapshotBank) (bank_pk : Pubkey)
    (token_price emissions_token_price : ℚ) (emissions_mint_decimals : Nat)
    (symbol : String) (rateCurve : ℚ → ℚ × ℚ) (aprToApy : ℚ → ℚ → ℚ) :
    DefiLammaPoolInfo :=
  let ltv : ℚ := 1 / bank.liability_weight_init
  let reward_tokens : List String :=
    if bank.emissions_mint ≠ Pubkey.default then [toString bank.emissions_mint] else []
  let scale : ℚ := (10 : ℚ) ^ bank.mint_decimals
  let total_deposits : ℚ := bank.total_asset_shares * bank.asset_share_value / scale
  let total_borrows : ℚ := bank.total_liability_shares * bank.liability_share_value / scale
  let net_supply := total_deposits - total_borrows
  let tvl_usd := token_price * net_supply
  let total_supply_usd := token_price * total_deposits
  let total_borrow_usd := token_price * total_borrows
  let ur : ℚ := if total_deposits > 0 then total_borrows / total_deposits else 0
  let rates := rateCurve ur
  let lending_rate := rates.1
  let borrowing_rate := rates.2
  let rewardAprs : Option ℚ × Option ℚ :=
    if bank.emissions_mint ≠ Pubkey.default then
      let reward_rate_per_token : ℚ := (bank.emissions_rate : ℚ) / (10 : ℚ) ^ emissions_mint_decimals
      let relative_emissions_value := emissions_token_price * reward_rate_per_token / token_price
      (if bank.get_emissions_flag EMISSIONS_FLAG_LENDING_ACTIVE then
        some relative_emissions_value
       else none,
       if bank.get_emissions_flag EMISSIONS_FLAG_BORROW_ACTIVE then
        some relative_emissions_value
       else none)
    else (none, none)
  { pool := toString bank_pk
    chain := "solana"
    project := "marginfi"
    symbol := symbol
    tvl_usd := tvl_usd
    total_supply_usd := total_supply_usd
    total_borrow_usd := total_borrow_usd
    ltv := ltv
    apy_base := aprToApy lending_rate SECONDS_PER_YEAR
    apy_reward := rewardAprs.1.map (fun a => aprToApy (lending_rate + a) SECONDS_PER_YEAR)
    apy_base_borrow := aprToApy borrowing_rate SECONDS_PER_YEAR
    apy_reward_borrow := rewardAprs.2.map (fun a => aprToApy (borrowing_rate + a) SECONDS_PER_YEAR)
    reward_tokens := reward_tokens
    underlying_tokens := [toString bank.mint] }

/-- A snapshot bank with no emission asset (`emissions_mint` is the default
identity) but with both emission flags set. -/
def exSnapshotBank : SnapshotBank :=
  { mint := 7
    mint_decimals := 6
    emissions_mint := Pubkey.default
    emissions_flags := 3
    emissions_rate := 500
    total_asset_shares := 100
    total_liability_shares := 40
    asset_share_value := 1
    liability_share_value := 1
    liability_weight_init := 1 }

/-- A bank whose total deposit value (5000) already exceeds the capacity
value (1000). -/
def exBankOverCap : Bank := { exBank with total_deposit_shares := ⟨5000 * fracUnit⟩ }

/-- The state after a successful deposit of 500 shares into a fresh bank. -/
def exBankAfterDeposit : Bank := (Bank.change_deposit_shares exBank ⟨500 * fracUnit⟩).2

/-- A lending pool holding `exBank` (asset identity 7) in slot 0 and 127
empty slots. -/
def exPool : LendingPool :=
  ⟨some exBank :: List.replicate 127 none, by simp [MAX_LENDING_POOL_RESERVES]⟩

set_option maxRecDepth 8000

/-! Helper lemmas -/

theorem I80F48.eq_of_bits {a b : I80F48} (h : a.bits = b.bits) : a = b := by
  cases a; cases b; cases h; rfl

theorem I80F48.lt_def (a b : I80F48) : a < b ↔ a.bits < b.bits := Iff.rfl

theorem I80F48.checked_add_some {a b c : I80F48}
    (h : I80F48.checked_add a b = some c) : c.bits = a.bits + b.bits := by
  unfold I80F48.checked_add at h
  split at h
  · simp only [Option.some.injEq] at h
    rw [← h]
  · cases h

theorem I80F48.checked_add_none {a b : I80F48}
    (h : I80F48.checked_add a b = none) : ¬ inRangeI128 (a.bits + b.bits) := by
  unfold I80F48.checked_add at h
  split at h
  · cases h
  · assumption

/-- Whatever `change_deposit_shares` returns, either the checked addition
failed (`MathError`, bank unchanged) or the returned bank's deposit-share
total is the old total plus the delta with every other field unchanged. -/
theorem Bank.change_deposit_shares_post (b : Bank) (d : I80F48) :
    ((Bank.change_deposit_shares b d).1 = .error .MathError ∧
      (Bank.change_deposit_shares b d).2 = b ∧
      ¬ inRangeI128 (b.total_deposit_shares.bits + d.bits)) ∨
    (Bank.change_deposit_shares b d).2 =
      { b with total_deposit_shares := ⟨b.total_deposit_shares.bits + d.bits⟩ } := by
  unfold Bank.change_deposit_shares
  rcases hadd : I80F48.checked_add b.total_deposit_shares d with _ | nt
  · left
    exact ⟨rfl, rfl, I80F48.checked_add_none hadd⟩
  · right
    obtain rfl : nt = ⟨b.total_deposit_shares.bits + d.bits⟩ :=
      I80F48.eq_of_bits (I80F48.checked_add_some hadd)
    dsimp only
    split
    · split
      · rfl
      · split
        · rfl
        · split
          · rfl
          · rfl
    · rfl

/-! ### C9 -/

/-- C9: `changeDepositShares(0)` never runs the capacity check (the delta is
not strictly positive), so for any bank whose stored total is a valid
`i128` the call succeeds and returns the bank unchanged — including a bank
whose total deposit value already exceeds the capacity value. -/
theorem change_deposit_shares_zero_noop (b : Bank)
    (h : inRangeI128 b.total_deposit_shares.bits) :
    Bank.change_deposit_shares b I80F48.ZERO = (.ok (), b) := by
  simp [Bank.change_deposit_shares, I80F48.checked_add, I80F48.ZERO, I80F48.is_positive, h]

/-- C9 witness: a bank holding deposits worth 5000 against a capacity of
1000 still accepts a zero delta and is left unchanged. -/
theorem change_deposit_shares_zero_noop_witness :
    inRangeI128 exBankOverCap.total_deposit_shares.bits ∧
    Bank.change_deposit_shares exBankOverCap I80F48.ZERO = (.ok (), exBankOverCap) :=
  ⟨by decide, change_deposit_shares_zero_noop exBankOverCap (by decide)⟩

/-- The full behaviour of `change_liability_shares` as one equation. -/
theorem Bank.change_liability_shares_eq (b : Bank) (d : I80F48) :
    Bank.change_liability_shares b d =
      if inRangeI128 (b.total_borrow_shares.bits + d.bits) then
        (.ok (), { b with total_borrow_shares := ⟨b.total_borrow_shares.bits + d.bits⟩ })
      else (.error .MathError, b) := by
  by_cases hP : inRangeI128 (b.total_borrow_shares.bits + d.bits)
  · simp [Bank.change_liability_shares, I80F48.checked_add, hP]
  · simp [Bank.change_liability_shares, I80F48.checked_add, hP]

/-- A successful `change_deposit_shares` call returns the input bank with
exactly the deposit-share total replaced by old plus delta. -/
theorem Bank.change_deposit_shares_ok {b : Bank} {d : I80F48} {b' : Bank}
    (h : Bank.change_deposit_shares b d = (.ok (), b')) :
    b' = { b with total_deposit_shares := ⟨b.total_deposit_shares.bits + d.bits⟩ } := by
  rcases Bank.change_deposit_shares_post b d with ⟨h1, -, -⟩ | h2
  · rw [h] at h1
    exact Except.noConfusion h1
  · rw [h] at h2
    exact h2

/-- A successful `change_liability_shares` call returns the input bank with
exactly the borrow-share total replaced by old plus delta. -/
theorem Bank.change_liability_shares_ok {b : Bank} {d : I80F48} {b' : Bank}
    (h : Bank.change_liability_shares b d = (.ok (), b')) :
    b' = { b with total_borrow_shares := ⟨b.total_borrow_shares.bits + d.bits⟩ } := by
  rw [Bank.change_liability_shares_eq] at h
  split at h
  · injection h with h1 h2
    exact h2.symm
  · injection h with h1 h2
    exact Except.noConfusion h1

/-! ### C5 -/

/-- C5: `changeLiabilityShares` performs a checked addition and nothing
else: when the sum is representable it succeeds and the borrow-share total
becomes old plus delta; otherwise it fails with `MathError`
(`NumericOverflow`) and the bank is unchanged.  No capacity or utilization
condition appears: the result does not depend on `max_capacity` or on any
other configuration field. -/
theorem change_liability_shares_spec (b : Bank) (d : I80F48) :
    Bank.change_liability_shares b d =
      if inRangeI128 (b.total_borrow_shares.bits + d.bits) then
        (.ok (), { b with total_borrow_shares := ⟨b.total_borrow_shares.bits + d.bits⟩ })
      else (.error .MathError, b) :=
  Bank.change_liability_shares_eq b d

/-! ### C10 -/

/-- C10: when the checked addition itself is unrepresentable, both share
mutators fail with `MathError` and return the bank completely unchanged —
the overflow branch is atomic, unlike the capacity branch. -/
theorem change_shares_overflow_atomic (b : Bank) (d e : I80F48)
    (hd : ¬ inRangeI128 (b.total_deposit_shares.bits + d.bits))
    (he : ¬ inRangeI128 (b.total_borrow_shares.bits + e.bits)) :
    Bank.change_deposit_shares b d = (.error .MathError, b) ∧
    Bank.change_liability_shares b e = (.error .MathError, b) := by
  constructor
  · simp [Bank.change_deposit_shares, I80F48.checked_add, hd]
  · simp [Bank.change_liability_shares, I80F48.checked_add, he]

/-- C10 witness: with both totals at `i128::MAX`, adding one raw unit
overflows and both calls fail with `MathError`, leaving the bank as it
was. -/
theorem change_shares_overflow_atomic_witness :
    (¬ inRangeI128 (exBankMaxTotals.total_deposit_shares.bits + (1 : Int)) ∧
     ¬ inRangeI128 (exBankMaxTotals.total_borrow_shares.bits + (1 : Int))) ∧
    Bank.change_deposit_shares exBankMaxTotals ⟨1⟩ = (.error .MathError, exBankMaxTotals) ∧
    Bank.change_liability_shares exBankMaxTotals ⟨1⟩ = (.error .MathError, exBankMaxTotals) :=
  ⟨⟨by decide, by decide⟩,
   change_shares_overflow_atomic exBankMaxTotals ⟨1⟩ ⟨1⟩ (by decide) (by decide)⟩

/-! ### C2 -/

/-- C2: whenever `changeDepositShares` fails with
`BankDepositCapacityExceeded`, the returned bank's deposit-share total is
already the old total plus the delta: the mutation precedes the capacity
check and is left in place on that error. -/
theorem change_deposit_shares_capacity_error_mutated (b : Bank) (d : I80F48)
    (h : (Bank.change_deposit_shares b d).1 = .error .BankDepositCapacityExceeded) :
    (Bank.change_deposit_shares b d).2.total_deposit_shares.bits =
      b.total_deposit_shares.bits + d.bits := by
  rcases Bank.change_deposit_shares_post b d with ⟨h1, _, _⟩ | h2
  · rw [h1] at h
    cases h
  · rw [h2]

/-- C2 witness: depositing 2000 shares into a fresh bank with capacity 1000
fails with `BankDepositCapacityExceeded`, and the returned bank's total is
nevertheless 2000 shares. -/
theorem change_deposit_shares_capacity_error_mutated_witness :
    (Bank.change_deposit_shares exBank ⟨2000 * fracUnit⟩).1 =
      .error .BankDepositCapacityExceeded ∧
    (Bank.change_deposit_shares exBank ⟨2000 * fracUnit⟩).2.total_deposit_shares.bits =
      exBank.total_deposit_shares.bits + (2000 * fracUnit : Int) :=
  ⟨by decide, change_deposit_shares_capacity_error_mutated exBank ⟨2000 * fracUnit⟩ (by decide)⟩

/-! ### C1 -/

/-- C1 counterexample: on a fresh bank with unit share value and capacity
1000, depositing exactly 1000 shares makes the new total deposit value
(1000) equal — not strictly greater than — the capacity value (1000), yet
the call fails with `BankDepositCapacityExceeded`, refuting the claim that
a deposit landing exactly at capacity succeeds. -/
theorem change_deposit_shares_at_capacity_fails :
    Bank.get_deposit_value exBank (I80F48.ofU64 1000) = .ok (I80F48.ofU64 1000) ∧
    Bank.get_deposit_value exBank (I80F48.ofU64 exBank.config.max_capacity) =
      .ok (I80F48.ofU64 1000) ∧
    I80F48.checked_add exBank.total_deposit_shares ⟨1000 * fracUnit⟩ =
      some (I80F48.ofU64 1000) ∧
    (⟨1000 * fracUnit⟩ : I80F48).is_positive = true ∧
    Bank.change_deposit_shares exBank ⟨1000 * fracUnit⟩ =
      (.error .BankDepositCapacityExceeded,
       { exBank with total_deposit_shares := I80F48.ofU64 1000 }) := by
  refine ⟨by decide, by decide, by decide, by decide, by decide⟩

/-- C1 amended: for a positive delta whose checked addition succeeds and
whose two value conversions succeed, `changeDepositShares` fails with
`BankDepositCapacityExceeded` exactly when the new total deposit value is
greater than **or equal to** the capacity value, and succeeds exactly when
it is strictly below; in both cases the returned bank carries the new
total. -/
theorem change_deposit_shares_capacity_threshold (b : Bank) (d nt tv cv : I80F48)
    (hpos : d.is_positive = true)
    (hadd : I80F48.checked_add b.total_deposit_shares d = some nt)
    (htv : Bank.get_deposit_value b nt = .ok tv)
    (hcv : Bank.get_deposit_value b (I80F48.ofU64 b.config.max_capacity) = .ok cv) :
    (Bank.change_deposit_shares b d =
      (.error .BankDepositCapacityExceeded, { b with total_deposit_shares := nt }) ↔
      cv.bits ≤ tv.bits) ∧
    (Bank.change_deposit_shares b d =
      (.ok (), { b with total_deposit_shares := nt }) ↔ tv.bits < cv.bits) := by
  have htv' : Bank.get_deposit_value { b with total_deposit_shares := nt } nt = .ok tv := htv
  have hcv' : Bank.get_deposit_value { b with total_deposit_shares := nt }
      (I80F48.ofU64 b.config.max_capacity) = .ok cv := hcv
  unfold Bank.change_deposit_shares
  rw [hadd]
  simp only [hpos, if_true, htv', hcv']
  split_ifs with hlt
  · have hlt' : tv.bits < cv.bits := hlt
    refine ⟨⟨fun h => ?_, fun h => absurd hlt' (by omega)⟩, ⟨fun _ => hlt', fun _ => rfl⟩⟩
    injection h with h1 h2
    exact Except.noConfusion h1
  · have hge : ¬ tv.bits < cv.bits := hlt
    refine ⟨⟨fun _ => by omega, fun _ => rfl⟩, ⟨fun h => ?_, fun h => absurd h hge⟩⟩
    injection h with h1 h2
    exact Except.noConfusion h1

/-- C1 witness for the amended statement: depositing 2000 shares into the
fresh capacity-1000 bank gives a new total value of 2000 ≥ 1000, so the
call fails with `BankDepositCapacityExceeded` and leaves the total at
2000 shares. -/
theorem change_deposit_shares_capacity_threshold_witness :
    Bank.change_deposit_shares exBank ⟨2000 * fracUnit⟩ =
      (.error .BankDepositCapacityExceeded,
       { exBank with total_deposit_shares := I80F48.ofU64 2000 }) :=
  (change_deposit_shares_capacity_threshold exBank ⟨2000 * fracUnit⟩
    (I80F48.ofU64 2000) (I80F48.ofU64 2000) (I80F48.ofU64 1000)
    (by decide) (by decide) (by decide) (by decide)).1.mpr (by decide)

/-! ### C3 -/

/-- C3 counterexample: the state reached from `Bank::new` by the single
*successful* call `changeLiabilityShares(-1 raw unit)` is reachable in the
claim's sense yet has a strictly negative borrow-share total: nothing in
the code keeps the totals nonnegative under negative deltas. -/
theorem reachable_bank_negative_total :
    ReachableBank exBankNegBorrow ∧ exBankNegBorrow.total_borrow_shares.bits < 0 :=
  ⟨ReachableBank.liab exBank ⟨-1⟩ exBankNegBorrow
    (ReachableBank.base exConfig 7 1 2 3) (by decide), by decide⟩

/-- C3 amended: in every bank state reachable from `Bank::new` by
successful share changes whose deltas are all nonnegative, both share
totals stay nonnegative. -/
theorem reachable_nonneg_deltas_nonneg_totals (b : Bank) (h : ReachableBankNN b) :
    0 ≤ b.total_deposit_shares.bits ∧ 0 ≤ b.total_borrow_shares.bits := by
  induction h with
  | base config mint_pk lv iv fv => exact ⟨le_refl 0, le_refl 0⟩
  | dep b d b' hr hd hok ih =>
    obtain rfl := Bank.change_deposit_shares_ok hok
    refine ⟨?_, ih.2⟩
    have h1 := ih.1
    show 0 ≤ b.total_deposit_shares.bits + d.bits
    omega
  | liab b d b' hr hd hok ih =>
    obtain rfl := Bank.change_liability_shares_ok hok
    refine ⟨ih.1, ?_⟩
    have h2 := ih.2
    show 0 ≤ b.total_borrow_shares.bits + d.bits
    omega

/-- C3 witness: after a successful 500-share deposit from a fresh bank the
state is reachable with nonnegative deltas and both totals are
nonnegative. -/
theorem reachable_nonneg_deltas_nonneg_totals_witness :
    ReachableBankNN exBankAfterDeposit ∧
    0 ≤ exBankAfterDeposit.total_deposit_shares.bits ∧
    0 ≤ exBankAfterDeposit.total_borrow_shares.bits :=
  have hreach : ReachableBankNN exBankAfterDeposit :=
    ReachableBankNN.dep exBank ⟨500 * fracUnit⟩ exBankAfterDeposit
      (ReachableBankNN.base exConfig 7 1 2 3) (by decide) (by decide)
  ⟨hreach, reachable_nonneg_deltas_nonneg_totals exBankAfterDeposit hreach⟩

/-! ### C6 -/

/-- C6: `configure` always succeeds; each config field whose patch entry is
present is overwritten with the patched value and each absent one is kept;
every non-config field of the bank is unchanged; the all-absent patch is a
no-op returning an identical bank; and patching only one weight tier's
fields leaves the other tier's `get_weights` answer unchanged. -/
theorem configure_patch_semantics (b : Bank) (p : BankConfigOpt) :
    (Bank.configure b p).1 = .ok () ∧
    (Bank.configure b p).2.config.deposit_weight_init
      = p.deposit_weight_init.getD b.config.deposit_weight_init ∧
    (Bank.configure b p).2.config.deposit_weight_maint
      = p.deposit_weight_maint.getD b.config.deposit_weight_maint ∧
    (Bank.configure b p).2.config.liability_weight_init
      = p.liability_weight_init.getD b.config.liability_weight_init ∧
    (Bank.configure b p).2.config.liability_weight_maint
      = p.liability_weight_maint.getD b.config.liability_weight_maint ∧
    (Bank.configure b p).2.config.max_capacity
      = p.max_capacity.getD b.config.max_capacity ∧
    (Bank.configure b p).2.config.pyth_oracle
      = p.pyth_oracle.getD b.config.pyth_oracle ∧
    (Bank.configure b p).2.mint = b.mint ∧
    (Bank.configure b p).2.deposit_share_value = b.deposit_share_value ∧
    (Bank.configure b p).2.liability_share_value = b.liability_share_value ∧
    (Bank.configure b p).2.liquidity_vault = b.liquidity_vault ∧
    (Bank.configure b p).2.insurance_vault = b.insurance_vault ∧
    (Bank.configure b p).2.fee_vault = b.fee_vault ∧
    (Bank.configure b p).2.total_deposit_shares = b.total_deposit_shares ∧
    (Bank.configure b p).2.total_borrow_shares = b.total_borrow_shares ∧
    (p = ⟨none, none, none, none, none, none⟩ → (Bank.configure b p).2 = b) ∧
    (p.deposit_weight_maint = none → p.liability_weight_maint = none →
      (Bank.configure b p).2.config.get_weights .Maintenance
        = b.config.get_weights .Maintenance) ∧
    (p.deposit_weight_init = none → p.liability_weight_init = none →
      (Bank.configure b p).2.config.get_weights .Initial
        = b.config.get_weights .Initial) := by
  refine ⟨rfl, rfl, rfl, rfl, rfl, rfl, rfl, rfl, rfl, rfl, rfl, rfl, rfl, rfl, rfl,
    ?_, ?_, ?_⟩
  · rintro rfl
    rfl
  · intro h1 h2
    simp [Bank.configure, BankConfig.get_weights, setIfSome, h1, h2]
  · intro h1 h2
    simp [Bank.configure, BankConfig.get_weights, setIfSome, h1, h2]

/-- C6 witness: patching only the initial deposit weight of a fresh bank
keeps both maintenance weights served by `get_weights` unchanged, and the
patched field takes the new value. -/
theorem configure_patch_semantics_witness :
    (Bank.configure exBank ⟨some ⟨5⟩, none, none, none, none, none⟩).1 = .ok () ∧
    (Bank.configure exBank ⟨some ⟨5⟩, none, none, none, none, none⟩).2.config.deposit_weight_init
      = ⟨5⟩ ∧
    (Bank.configure exBank ⟨some ⟨5⟩, none, none, none, none, none⟩).2.config.get_weights
      .Maintenance = exBank.config.get_weights .Maintenance := by
  obtain ⟨hok, hdwi, -, -, -, -, -, -, -, -, -, -, -, -, -, -, hmaint, -⟩ :=
    configure_patch_semantics exBank ⟨some ⟨5⟩, none, none, none, none, none⟩
  exact ⟨hok, hdwi, hmaint rfl rfl⟩

/-! ### C4 -/

theorem I80F48.checked_mul_some {a b c : I80F48}
    (h : I80F48.checked_mul a b = some c) :
    c.bits = Int.fdiv (a.bits * b.bits) fracUnit := by
  unfold I80F48.checked_mul at h
  dsimp only at h
  split at h
  · simp only [Option.some.injEq] at h
    rw [← h]
  · cases h

theorem I80F48.checked_div_some {a b c : I80F48}
    (h : I80F48.checked_div a b = some c) :
    b.bits ≠ 0 ∧ c.bits = Int.tdiv (a.bits * fracUnit) b.bits := by
  unfold I80F48.checked_div at h
  split at h
  · cases h
  · next hb =>
    refine ⟨hb, ?_⟩
    dsimp only at h
    split at h
    · simp only [Option.some.injEq] at h
      rw [← h]
    · cases h

theorem Bank.get_deposit_shares_ok {b : Bank} {v q : I80F48}
    (h : Bank.get_deposit_shares b v = .ok q) :
    b.deposit_share_value.bits ≠ 0 ∧
    q.bits = Int.tdiv (v.bits * fracUnit) b.deposit_share_value.bits := by
  unfold Bank.get_deposit_shares at h
  rcases hd : I80F48.checked_div v b.deposit_share_value with _ | q0
  · rw [hd] at h
    exact Except.noConfusion h
  · rw [hd] at h
    injection h with h1
    exact h1 ▸ I80F48.checked_div_some hd

theorem Bank.get_deposit_value_ok {b : Bank} {q r : I80F48}
    (h : Bank.get_deposit_value b q = .ok r) :
    r.bits = Int.fdiv (q.bits * b.deposit_share_value.bits) fracUnit := by
  unfold Bank.get_deposit_value at h
  rcases hm : I80F48.checked_mul q b.deposit_share_value with _ | r0
  · rw [hm] at h
    exact Except.noConfusion h
  · rw [hm] at h
    injection h with h1
    exact h1 ▸ I80F48.checked_mul_some hm

/-- C4 counterexample: with `deposit_share_value` of raw bits 3 (the value
`3 * 2^-48`, nonzero) and `v` of raw bits 1, both conversions succeed, the
round trip returns 0, and the error `|v - roundtrip(v)| = 2^-48` exceeds
the claimed tolerance `deposit_share_value * 2^-48 = 3 * 2^-96`
(in raw bits: `|1 - 0| * 2^48 = 2^48 > 3`). -/
theorem deposit_roundtrip_exceeds_claimed_bound :
    exBankTinyShareValue.deposit_share_value.bits ≠ 0 ∧
    Bank.get_deposit_shares exBankTinyShareValue ⟨1⟩ = .ok ⟨93824992236885⟩ ∧
    Bank.get_deposit_value exBankTinyShareValue ⟨93824992236885⟩ = .ok ⟨0⟩ ∧
    ¬ ((1 - 0 : Int) * fracUnit ≤ exBankTinyShareValue.deposit_share_value.bits) :=
  ⟨by decide, by decide, by decide, by decide⟩

/-- C4 amended: for a positive `deposit_share_value` and nonnegative `v`
whose conversion to shares and back succeeds, the round trip
under-approximates `v`, and the error is strictly below
`(deposit_share_value + 1) * 2^-48` — one extra unit in the last place on
top of the claimed `deposit_share_value * 2^-48` allowance (in raw bits:
`0 ≤ v - roundtrip(v)` and `(v - roundtrip(v)) * 2^48 <
deposit_share_value + 2^48`). -/
theorem deposit_roundtrip_bound (b : Bank) (v q r : I80F48)
    (hs : 0 < b.deposit_share_value.bits)
    (hv : 0 ≤ v.bits)
    (hq : Bank.get_deposit_shares b v = .ok q)
    (hr : Bank.get_deposit_value b q = .ok r) :
    r.bits ≤ v.bits ∧
    (v.bits - r.bits) * fracUnit < b.deposit_share_value.bits + fracUnit := by
  obtain ⟨hsne, hqbits⟩ := Bank.get_deposit_shares_ok hq
  have hrbits := Bank.get_deposit_value_ok hr
  have hfrac : (0 : Int) < fracUnit := by norm_num [fracUnit]
  have hW : (0 : Int) ≤ v.bits * fracUnit := mul_nonneg hv (le_of_lt hfrac)
  have hqe : q.bits = v.bits * fracUnit / b.deposit_share_value.bits := by
    rw [hqbits, Int.tdiv_eq_ediv hW (le_of_lt hs)]
  have hre : r.bits = q.bits * b.deposit_share_value.bits / fracUnit := by
    rw [hrbits, Int.fdiv_eq_ediv _ (le_of_lt hfrac)]
  have hdm := Int.ediv_add_emod (v.bits * fracUnit) b.deposit_share_value.bits
  have hmod0 : 0 ≤ v.bits * fracUnit % b.deposit_share_value.bits :=
    Int.emod_nonneg _ (ne_of_gt hs)
  have hmodS : v.bits * fracUnit % b.deposit_share_value.bits < b.deposit_share_value.bits :=
    Int.emod_lt_of_pos _ hs
  have hqS : q.bits * b.deposit_share_value.bits =
      v.bits * fracUnit - v.bits * fracUnit % b.deposit_share_value.bits := by
    rw [hqe]
    linarith [hdm]
  constructor
  · have h1 : q.bits * b.deposit_share_value.bits ≤ v.bits * fracUnit := by
      rw [hqS]
      linarith
    have h2 := Int.ediv_le_ediv hfrac h1
    rw [Int.mul_ediv_cancel v.bits (ne_of_gt hfrac)] at h2
    rw [hre]
    exact h2
  · have h3 := Int.lt_ediv_add_one_mul_self (q.bits * b.deposit_share_value.bits) hfrac
    rw [← hre] at h3
    have hexp : (v.bits - r.bits) * fracUnit = v.bits * fracUnit - r.bits * fracUnit := by
      ring
    rw [hexp]
    linarith [hqS, h3, hmodS]

/-- C4 witness for the amended statement: at share-value bits 3 and value
bits 1, the round trip gives 0 and the error of one raw unit satisfies the
amended bound `2^48 < 3 + 2^48`. -/
theorem deposit_roundtrip_bound_witness :
    (0 : Int) < exBankTinyShareValue.deposit_share_value.bits ∧
    (0 : Int) ≤ (1 : Int) ∧
    ((⟨0⟩ : I80F48).bits ≤ (⟨1⟩ : I80F48).bits ∧
     ((⟨1⟩ : I80F48).bits - (⟨0⟩ : I80F48).bits) * fracUnit <
       exBankTinyShareValue.deposit_share_value.bits + fracUnit) :=
  ⟨by decide, by decide,
   deposit_roundtrip_bound exBankTinyShareValue ⟨1⟩ ⟨93824992236885⟩ ⟨0⟩
     (by decide) (by decide) (by decide) (by decide)⟩

/-! ### C7 -/

/-- A successful `find?` over the slots returns the match of lowest index:
some earlier-quantified index holds the returned slot and every strictly
earlier slot fails the predicate. -/
theorem find_first_match (l : List (Option Bank)) (m : Pubkey) (s : Option Bank)
    (h : l.find? (slotMatches m) = some s) :
    ∃ i, i < l.length ∧ l.getD i none = s ∧ slotMatches m s = true ∧
      ∀ j, j < i → slotMatches m (l.getD j none) = false := by
  induction l with
  | nil => cases h
  | cons a t ih =>
    by_cases ha : slotMatches m a = true
    · rw [List.find?_cons_of_pos _ ha] at h
      injection h with h1
      subst h1
      exact ⟨0, Nat.succ_pos _, rfl, ha, fun j hj => absurd hj (Nat.not_lt_zero j)⟩
    · rw [List.find?_cons_of_neg _ ha] at h
      obtain ⟨i, hi, hget, hmatch, hbefore⟩ := ih h
      refine ⟨i + 1, Nat.succ_lt_succ hi, ?_, hmatch, ?_⟩
      · simpa [List.getD_cons_succ] using hget
      · intro j hj
        cases j with
        | zero =>
          simpa [List.getD_cons_zero] using Bool.not_eq_true _ ▸ ha
        | succ k =>
          simpa [List.getD_cons_succ] using hbefore k (Nat.lt_of_succ_lt_succ hj)

/-- When all populated slots carry distinct mints, `find?` locates exactly
the populated slot holding the requested mint. -/
theorem find_of_mem_distinct (l : List (Option Bank)) (m : Pubkey) (b : Bank)
    (hdist : l.Pairwise distinctSlots) (hmem : some b ∈ l) (hmint : b.mint = m) :
    l.find? (slotMatches m) = some (some b) := by
  induction l with
  | nil => cases hmem
  | cons a t ih =>
    rcases List.mem_cons.mp hmem with rfl | hmem'
    · exact List.find?_cons_of_pos _ (by simp [slotMatches, hmint])
    · have ha : ¬ slotMatches m a = true := by
        rcases a with _ | c
        · simp [slotMatches]
        · have hd := (List.pairwise_cons.mp hdist).1 (some b) hmem'
          have hne : c.mint ≠ b.mint := hd c b rfl rfl
          have hcm : c.mint ≠ m := fun hc => hne (hc.trans hmint.symm)
          simp [slotMatches, hcm]
      rw [List.find?_cons_of_neg _ ha]
      exact ih (List.pairwise_cons.mp hdist).2 hmem'

/-- `get_bank` answers absent exactly when the underlying `find?` does. -/
theorem get_bank_none_iff (p : LendingPool) (m : Pubkey) :
    p.get_bank m = none ↔ p.banks.find? (slotMatches m) = none := by
  unfold LendingPool.get_bank
  rcases hf : p.banks.find? (slotMatches m) with _ | s
  · simp
  · have hs := List.find?_some hf
    rcases s with _ | b
    · simp [slotMatches] at hs
    · simp

/-- Slots of an all-empty run are pairwise compatible. -/
theorem pairwise_distinct_replicate_none (n : Nat) :
    (List.replicate n (none : Option Bank)).Pairwise distinctSlots := by
  induction n with
  | zero => exact List.Pairwise.nil
  | succ k ih =>
    rw [List.replicate_succ]
    exact List.Pairwise.cons (fun s hs a c h1 h2 => Option.noConfusion h1) ih

/-- C7: `getBank` returns absent exactly when no populated slot matches the
asset identity; any returned bank carries the queried mint and sits in the
lowest-index matching slot; under pairwise-distinct identities the returned
bank is the unique populated match; and `getBankMutable` runs the identical
search. -/
theorem get_bank_lookup_semantics (p : LendingPool) (m : Pubkey) :
    (p.get_bank m = none ↔ ∀ s ∈ p.banks, slotMatches m s = false) ∧
    (∀ b : Bank, p.get_bank m = some b →
      b.mint = m ∧ ∃ i, i < p.banks.length ∧ p.banks.getD i none = some b ∧
        ∀ j, j < i → slotMatches m (p.banks.getD j none) = false) ∧
    (p.banks.Pairwise distinctSlots →
      ∀ b : Bank, some b ∈ p.banks → b.mint = m → p.get_bank m = some b) ∧
    p.get_bank_mut m = p.get_bank m := by
  refine ⟨?_, ?_, ?_, rfl⟩
  · rw [get_bank_none_iff, List.find?_eq_none]
    constructor
    · intro h s hs
      exact Bool.not_eq_true _ ▸ h s hs
    · intro h s hs
      rw [h s hs]
      exact Bool.false_ne_true
  · intro b hb
    have hf : p.banks.find? (slotMatches m) = some (some b) := by
      unfold LendingPool.get_bank at hb
      rcases hfind : p.banks.find? (slotMatches m) with _ | s
      · rw [hfind] at hb
        cases hb
      · rw [hfind] at hb
        rcases s with _ | c
        · cases hb
        · injection hb with h1
          subst h1
          rfl
    have hmatch := List.find?_some hf
    have hmint : b.mint = m := by simpa [slotMatches] using hmatch
    obtain ⟨i, hi, hget, -, hbefore⟩ := find_first_match _ m _ hf
    exact ⟨hmint, i, hi, hget, hbefore⟩
  · intro hdist b hmem hmint
    unfold LendingPool.get_bank
    rw [find_of_mem_distinct p.banks m b hdist hmem hmint]

/-- C7 witness: in a 128-slot pool holding only `exBank` (identity 7), the
unique-match branch finds it, an unregistered identity (5) answers absent,
and the mutable lookup agrees. -/
theorem get_bank_lookup_semantics_witness :
    exPool.get_bank 7 = some exBank ∧
    exPool.get_bank 5 = none ∧
    exPool.get_bank_mut 7 = exPool.get_bank 7 := by
  have hdist : exPool.banks.Pairwise distinctSlots :=
    List.Pairwise.cons (fun s hs a c h1 h2 => by
      have : s = none := List.eq_of_mem_replicate hs
      exact Option.noConfusion (this ▸ h2))
      (pairwise_distinct_replicate_none 127)
  refine ⟨(get_bank_lookup_semantics exPool 7).2.2.1 hdist exBank (by decide) rfl,
    (get_bank_lookup_semantics exPool 5).1.mpr (by decide),
    (get_bank_lookup_semantics exPool 7).2.2.2⟩

/-! ### C8 -/

/-- C8: when the bank's emission asset is absent (`emissions_mint` equals
the default identity), `from_bank` reports "not applicable" — `none`, not a
zero value — for both the lending-side and the borrowing-side reward APY,
whatever the emission flags, prices, curve and APY function are. -/
theorem from_bank_no_emissions_no_reward_apy (bank : SnapshotBank) (bank_pk : Pubkey)
    (token_price emissions_token_price : ℚ) (emissions_mint_decimals : Nat)
    (symbol : String) (rateCurve : ℚ → ℚ × ℚ) (aprToApy : ℚ → ℚ → ℚ)
    (h : bank.emissions_mint = Pubkey.default) :
    (DefiLammaPoolInfo.from_bank bank bank_pk token_price emissions_token_price
      emissions_mint_decimals symbol rateCurve aprToApy).apy_reward = none ∧
    (DefiLammaPoolInfo.from_bank bank bank_pk token_price emissions_token_price
      emissions_mint_decimals symbol rateCurve aprToApy).apy_reward_borrow = none := by
  unfold DefiLammaPoolInfo.from_bank
  simp [h]

/-- C8 witness: `exSnapshotBank` has no emission asset but both emission
flags set; its snapshot row still reports `none` for both reward APYs. -/
theorem from_bank_no_emissions_no_reward_apy_witness :
    exSnapshotBank.emissions_mint = Pubkey.default ∧
    exSnapshotBank.get_emissions_flag EMISSIONS_FLAG_LENDING_ACTIVE = true ∧
    exSnapshotBank.get_emissions_flag EMISSIONS_FLAG_BORROW_ACTIVE = true ∧
    (DefiLammaPoolInfo.from_bank exSnapshotBank 11 2 3 6 "tok" (fun u => (u, u))
      (fun a _ => a)).apy_reward = none ∧
    (DefiLammaPoolInfo.from_bank exSnapshotBank 11 2 3 6 "tok" (fun u => (u, u))
      (fun a _ => a)).apy_reward_borrow = none :=
  ⟨rfl, by decide, by decide,
   (from_bank_no_emissions_no_reward_apy exSnapshotBank 11 2 3 6 "tok"
     (fun u => (u, u)) (fun a _ => a) rfl).1,
   (from_bank_no_emissions_no_reward_apy exSnapshotBank 11 2 3 6 "tok"
     (fun u => (u, u)) (fun a _ => a) rfl).2⟩
